import Mathlib

/-!
Verification of the core data model and algorithms of the
motivated-proof-facilitator repository: the recursive statement model and
its path-based addressing, the selection-state manager, the atomic-statement
parser, sub-expression hit-testing, and the proof-discovery graph reducer.
Each definition is a shallow embedding of the corresponding TypeScript
function; JavaScript numbers used as identifiers/offsets are modelled as
`Int`, geometric coordinates as `Rat`, strings as `String`. The JS `===`
comparison on the `ProofStateId` record is reference equality, so each id
value carries an explicit `ref` (its heap identity) and `===` compares
only `ref`.
-/

namespace MPF

/-! ### Statement model (src/core/ProofState.ts) -/

/-- `AtomicStatement` is free text possibly containing `$`-delimited formulas. -/
def AtomicStatement := String

structure Variable where
  name : String
  description : AtomicStatement

/-- A context variable is a `Variable` tagged free / meta / let (the last with a value). -/
inductive ContextVariableKind where
  | free
  | meta
  | letVar (value : AtomicStatement)

structure ContextVariable extends Variable where
  kind : ContextVariableKind

/-- The recursive statement union of src/core/ProofState.ts. -/
inductive Statement where
  | atomic (text : AtomicStatement)
  | conjunction (statements : List Statement)
  | disjunction (statements : List Statement)
  | negation (statement : Statement)
  | implication (antecedent : Statement) (consequent : Statement)
  | equivalence (left : Statement) (right : Statement)
  | universal (var : Variable) (statement : Statement)
  | existential (var : Variable) (statement : Statement)
  | highlight (statement : Statement)

structure LabelledStatement where
  label : String
  statement : Statement

structure ProofStateContext where
  «variables» : List ContextVariable
  hypotheses : List LabelledStatement
  goals : List LabelledStatement

/-- A proof state is an ordered sequence of proof-state contexts. -/
def ProofState := List ProofStateContext

/-! ### Addressing (src/core/ProofStateSelectionContext.ts) -/

/-- One edge label in the path from a statement to an immediate child. -/
inductive StatementCoordinate where
  | conjunction (idx : Int)
  | disjunction (idx : Int)
  | implication_antecedent
  | implication_consequent
  | negation
  | equivalence_left
  | equivalence_right
  | universal_var
  | existential_var
  | universal_var_type
  | existential_var_type
  | universal_body
  | existential_body
  | highlight
deriving DecidableEq

/-- Mirrors `areStatementCoordinatesEqual`: the object-valued coordinates
(conjunction/disjunction, JS `typeof x === "object"`) compare kind and index;
the string-valued coordinates compare as strings; an object coordinate never
equals a string coordinate. -/
def areStatementCoordinatesEqual (a b : StatementCoordinate) : Bool :=
  match a, b with
  | .conjunction i, .conjunction j => i == j
  | .disjunction i, .disjunction j => i == j
  | .conjunction _, _ => false
  | .disjunction _, _ => false
  | _, .conjunction _ => false
  | _, .disjunction _ => false
  | x, y => x == y

/-- A location within a larger statement as a path from its root. -/
def StatementAddress := List StatementCoordinate

/-- Mirrors `areStatementAddressesEqual`: length check plus pointwise
coordinate comparison. -/
def areStatementAddressesEqual (a b : StatementAddress) : Bool :=
  a.length == b.length &&
    (List.zip a b).all fun p => areStatementCoordinatesEqual p.1 p.2

/-! ### Sub-expressions (src/core/SubExpression.ts) -/

structure SubExpressionCoreWithIndex where
  text : String
  source_start : Int
  source_end : Int
  index : Int
deriving DecidableEq

/-- Mirrors `areSubExpressionSelectionsEqual`. -/
def areSubExpressionSelectionsEqual (a b : SubExpressionCoreWithIndex) : Bool :=
  a.text == b.text &&
  a.source_start == b.source_start &&
  a.source_end == b.source_end &&
  a.index == b.index

/-! ### Selection state (src/core/ProofStateSelectionContext.ts) -/

/-- A `ProofStateId` names a node in the proof-discovery graph and a context
within it (src/core/ProofDiscoveryStateContext.ts). In JS it is an object;
`ref` models its reference (heap identity), which is all that the source's
`===` comparisons observe. Two separately constructed ids have distinct
`ref`s even when their fields are equal — the UI builds a fresh id object
on every render — while two ids with the same `ref` are the same heap
object, so their fields agree in any real heap. -/
structure ProofStateId where
  ref : Nat
  proofNodeId : Int
  proofContextId : Int
deriving DecidableEq

/-- JS `===` applied to two `ProofStateId` objects: reference equality. -/
def proofStateIdJsEq (a b : ProofStateId) : Bool :=
  a.ref == b.ref

inductive ProofStateLocationKind where
  | «variable»
  | variable_body
  | hypothesis
  | goal
deriving DecidableEq

structure ProofStateLocation where
  kind : ProofStateLocationKind
  label : String
deriving DecidableEq

/-- The payload of a selection: either a full `Statement` or a sub-expression
slice. In JS the discriminator is `typeof x === "object" && "text" in x`,
which is true exactly for the sub-expression payloads. -/
inductive SelectionPayload where
  | statement (s : Statement)
  | subexpression (s : SubExpressionCoreWithIndex)

structure ProofStateSelection where
  proofStateId : ProofStateId
  location : ProofStateLocation
  address : StatementAddress
  selection : SelectionPayload

/-- Mirrors `areProofStateSelectionsEqual`: id, location kind/label and
address must match; the payloads are compared only when both are
sub-expression payloads. -/
def areProofStateSelectionsEqual (a b : ProofStateSelection) : Bool :=
  proofStateIdJsEq a.proofStateId b.proofStateId &&
  a.location.kind == b.location.kind &&
  a.location.label == b.location.label &&
  areStatementAddressesEqual a.address b.address &&
  (match a.selection, b.selection with
   | .subexpression sa, .subexpression sb => areSubExpressionSelectionsEqual sa sb
   | _, _ => true)

inductive ProofStateSelectionAction where
  | toggle (selection : ProofStateSelection)
  | clearAllSelections
  | clearProofStateSelections (proofStateId : ProofStateId)

/-- Mirrors `proofStateSelectionReducer`: toggling removes the first
structurally equal element (via `findIndex`/`splice`) or appends the new
selection; the clear actions empty or filter the list. -/
def proofStateSelectionReducer (state : List ProofStateSelection)
    (action : ProofStateSelectionAction) : List ProofStateSelection :=
  match action with
  | .toggle selection =>
    match state.findIdx? (fun s => areProofStateSelectionsEqual s selection) with
    | some existingIndex => state.eraseIdx existingIndex
    | none => state ++ [selection]
  | .clearAllSelections => []
  | .clearProofStateSelections proofStateId =>
    state.filter fun s => !(proofStateIdJsEq s.proofStateId proofStateId)

/-! ### Atomic-statement parsing (AtomicStatement component) -/

/-- A segment of an atomic statement: plain text or a math formula. -/
inductive Segment where
  | text (content : String)
  | math (content : String)
deriving DecidableEq

def Segment.content : Segment → String
  | .text c => c
  | .math c => c

/-- The segment pushed for accumulated characters `acc` (in reverse order)
while in mode `inMath`. -/
def mkSegment (inMath : Bool) (acc : List Char) : Segment :=
  if inMath then .math (String.mk acc.reverse) else .text (String.mk acc.reverse)

/-- The loop of `parseAtomicStatement`: scan the characters; at each `$`
push the accumulated segment if nonempty and toggle the mode; at the end of
the input push any remaining nonempty segment in the current mode. -/
def parseAtomicStatementGo : List Char → Bool → List Char → List Segment
  | [], inMath, acc =>
    if acc.isEmpty then [] else [mkSegment inMath acc]
  | c :: rest, inMath, acc =>
    if c = '$' then
      (if acc.isEmpty then [] else [mkSegment inMath acc]) ++
        parseAtomicStatementGo rest (!inMath) []
    else
      parseAtomicStatementGo rest inMath (c :: acc)

/-- Mirrors `parseAtomicStatement`: split a string at `$` markers into
alternating text/formula segments, dropping empty segments. -/
def parseAtomicStatement (input : String) : List Segment :=
  parseAtomicStatementGo input.toList false []

/-! ### Sub-expression geometry and hit-testing (MathExpression component) -/

/-- A sub-expression with its source slice and rendered bounding box. -/
structure SubExpression where
  text : String
  source_start : Int
  source_end : Int
  x : Rat
  y : Rat
  width : Rat
  height : Rat
deriving DecidableEq

/-- The containment test of `findSmallestAtPoint`, inclusive of box edges. -/
def containsPoint (s : SubExpression) (x y : Rat) : Bool :=
  decide (s.x ≤ x) && decide (x ≤ s.x + s.width) &&
  decide (s.y ≤ y) && decide (y ≤ s.y + s.height)

/-- `area < bestArea` where `none` stands for the initial `Infinity`. -/
def areaLtBest (area : Rat) : Option Rat → Bool
  | none => true
  | some best => decide (area < best)

/-- The `forEach` loop of `findSmallestAtPoint`: `i` is the index of the next
element, `idx` the best index so far (`-1` initially), `best` the smallest
area so far (`none` standing for `Infinity`). -/
def findSmallestAux : List SubExpression → Rat → Rat → Nat → Int → Option Rat → Int
  | [], _, _, _, idx, _ => idx
  | s :: rest, x, y, i, idx, best =>
    if containsPoint s x y then
      if areaLtBest (s.width * s.height) best then
        findSmallestAux rest x y (i + 1) (i : Int) (some (s.width * s.height))
      else
        findSmallestAux rest x y (i + 1) idx best
    else
      findSmallestAux rest x y (i + 1) idx best

/-- Mirrors `findSmallestAtPoint`: the index of the smallest-area box
containing the point, `-1` when no box contains it. -/
def findSmallestAtPoint (subexprs : List SubExpression) (x y : Rat) : Int :=
  findSmallestAux subexprs x y 0 (-1) none

/-! ### Proof-discovery graph (ProofDiscoveryState.ts, over graphology) -/

inductive MoveKind where
  | strengthening
  | weakening
  | equivalence
  | other
deriving DecidableEq

structure MoveDescription where
  kind : MoveKind
  description : String

/-- A proof node holds one proof-state snapshot. -/
structure ProofNode where
  proofState : ProofState

/-- An edge of the graphology graph: endpoints, directedness and the move
attributes. -/
structure GraphEdge where
  source : Int
  target : Int
  undirected : Bool
  attributes : MoveDescription

/-- The graphology node/edge store: nodes in insertion order keyed by
integer ids, edges in insertion order. -/
structure ProofDiscoveryGraph where
  nodes : List (Int × ProofNode)
  edges : List GraphEdge

def ProofDiscoveryGraph.order (g : ProofDiscoveryGraph) : Nat :=
  g.nodes.length

def hasNode (g : ProofDiscoveryGraph) (n : Int) : Bool :=
  g.nodes.any fun p => p.1 == n

/-- graphology `addNode`: fails when the key is already present. -/
def addNode (g : ProofDiscoveryGraph) (n : Int) (node : ProofNode) :
    Except String ProofDiscoveryGraph :=
  if hasNode g n then .error "Graph.addNode: the node already exists in the graph."
  else .ok { g with nodes := g.nodes ++ [(n, node)] }

/-- graphology `addDirectedEdge` in a non-multi graph: fails when an endpoint
is missing or when a directed edge with the same endpoints exists. -/
def addDirectedEdge (g : ProofDiscoveryGraph) (s t : Int) (attr : MoveDescription) :
    Except String ProofDiscoveryGraph :=
  if !hasNode g s then .error "Graph.addDirectedEdge: source node not found."
  else if !hasNode g t then .error "Graph.addDirectedEdge: target node not found."
  else if g.edges.any (fun e => !e.undirected && e.source == s && e.target == t) then
    .error "Graph.addDirectedEdge: an edge linking the given source and target already exists."
  else .ok { g with edges := g.edges ++ [⟨s, t, false, attr⟩] }

/-- graphology `addUndirectedEdge` in a non-multi graph. -/
def addUndirectedEdge (g : ProofDiscoveryGraph) (s t : Int) (attr : MoveDescription) :
    Except String ProofDiscoveryGraph :=
  if !hasNode g s then .error "Graph.addUndirectedEdge: source node not found."
  else if !hasNode g t then .error "Graph.addUndirectedEdge: target node not found."
  else if g.edges.any (fun e =>
      e.undirected && ((e.source == s && e.target == t) || (e.source == t && e.target == s))) then
    .error "Graph.addUndirectedEdge: an edge linking the given source and target already exists."
  else .ok { g with edges := g.edges ++ [⟨s, t, true, attr⟩] }

/-- graphology `clear`: removes every node and edge. -/
def clearGraph : ProofDiscoveryGraph := ⟨[], []⟩

/-- graphology `setNodeAttribute(nodeId, "proofState", ps)` for an existing node. -/
def setNodeProofState (g : ProofDiscoveryGraph) (nodeId : Int) (ps : ProofState) :
    ProofDiscoveryGraph :=
  { g with nodes := g.nodes.map fun p => if p.1 == nodeId then (p.1, ⟨ps⟩) else p }

structure ProofDiscoveryState where
  statement : String
  graph : ProofDiscoveryGraph
  currentNodeId : Int
  isSolved : Bool

def nullProofDiscoveryState : ProofDiscoveryState :=
  { statement := "", graph := ⟨[], []⟩, currentNodeId := -1, isSolved := false }

inductive ProofDiscoveryAction where
  | initializeGraph (statement : String) (proofState : ProofState)
  | repair (nodeId : Int) (newProofState : ProofState)
  | focus (nodeId : Int)
  | transition (move : MoveDescription) (newProofState : ProofState)
  | finish

/-- The outcome of one reducer call. The graph object is shared by reference
between the old and the new state record, so a thrown error still leaves
behind every graph mutation made before the throw; `thrown` therefore
carries the graph as the caller observes it after catching the error. -/
inductive ReducerResult where
  | ok (state : ProofDiscoveryState)
  | thrown (msg : String) (graph : ProofDiscoveryGraph)

/-- The state the caller holds after the call: the returned record on
success, or the old record with the (shared, possibly mutated) graph after
catching a thrown error. -/
def observedState (pre : ProofDiscoveryState) : ReducerResult → ProofDiscoveryState
  | .ok s => s
  | .thrown _ g => { pre with graph := g }

def ReducerResult.didThrow : ReducerResult → Bool
  | .ok _ => false
  | .thrown _ _ => true

/-- Mirrors `proofDiscoveryStateReducer` case by case. -/
def proofDiscoveryStateReducer (state : ProofDiscoveryState)
    (action : ProofDiscoveryAction) : ReducerResult :=
  match action with
  | .initializeGraph statement proofState =>
    let g0 := if state.graph.order > 0 then clearGraph else state.graph
    match addNode g0 0 ⟨proofState⟩ with
    | .ok g1 => .ok { statement := statement, graph := g1, currentNodeId := 0, isSolved := false }
    | .error e => .thrown e g0
  | .repair nodeId newProofState =>
    if !hasNode state.graph nodeId then
      .thrown ("Node with ID " ++ toString nodeId ++ " does not exist.") state.graph
    else
      .ok { state with graph := setNodeProofState state.graph nodeId newProofState }
  | .focus nodeId =>
    if !hasNode state.graph nodeId then
      .thrown ("Node with ID " ++ toString nodeId ++ " does not exist.") state.graph
    else
      .ok { state with currentNodeId := nodeId }
  | .transition move newProofState =>
    let newNodeId : Int := (state.graph.order : Int)
    match addNode state.graph newNodeId ⟨newProofState⟩ with
    | .error e => .thrown e state.graph
    | .ok g1 =>
      let edgeResult :=
        match move.kind with
        | .strengthening => addDirectedEdge g1 newNodeId state.currentNodeId move
        | .weakening => addDirectedEdge g1 state.currentNodeId newNodeId move
        | .equivalence => addUndirectedEdge g1 newNodeId state.currentNodeId move
        | .other => addDirectedEdge g1 newNodeId state.currentNodeId move
      match edgeResult with
      | .ok g2 => .ok { state with graph := g2, currentNodeId := newNodeId }
      | .error e => .thrown e g1
  | .finish => .ok { state with isSolved := true }

/-- One dispatch as the caller sees it (catching any thrown error). -/
def stepState (s : ProofDiscoveryState) (a : ProofDiscoveryAction) : ProofDiscoveryState :=
  observedState s (proofDiscoveryStateReducer s a)

def runActions (s : ProofDiscoveryState) (actions : List ProofDiscoveryAction) :
    ProofDiscoveryState :=
  actions.foldl stepState s

/-- A state reachable from the initial null state by dispatching actions. -/
def Reachable (s : ProofDiscoveryState) : Prop :=
  ∃ actions : List ProofDiscoveryAction, runActions nullProofDiscoveryState actions = s

/-- The `(id, node)` pairs passed to the successful `addNode` calls made by
one reducer dispatch (insertion happens even when a later edge insertion in
the same dispatch throws). -/
def actionInsertions (s : ProofDiscoveryState) (a : ProofDiscoveryAction) :
    List (Int × ProofNode) :=
  match a with
  | .initializeGraph _ proofState =>
    let g0 := if s.graph.order > 0 then clearGraph else s.graph
    match addNode g0 0 ⟨proofState⟩ with
    | .ok _ => [(0, ⟨proofState⟩)]
    | .error _ => []
  | .transition _ newProofState =>
    let newNodeId : Int := (s.graph.order : Int)
    match addNode s.graph newNodeId ⟨newProofState⟩ with
    | .ok _ => [(newNodeId, ⟨newProofState⟩)]
    | .error _ => []
  | _ => []

/-- The insertion trace of a run: every `(id, node)` insertion in order. -/
def runTrace : ProofDiscoveryState → List ProofDiscoveryAction → List (Int × ProofNode)
  | _, [] => []
  | s, a :: rest => actionInsertions s a ++ runTrace (stepState s a) rest

def ProofDiscoveryAction.isInitializeAction : ProofDiscoveryAction → Bool
  | .initializeGraph _ _ => true
  | _ => false

/-! ### Derived predicates used by the specifications -/

/-- The characterization of a hit-test result `r` on boxes `l` and query
point `(x, y)`: `-1` exactly when no box contains the point; otherwise the
returned index points at a containing box of minimal area `width * height`,
and every earlier containing box has strictly larger area (first-occurrence
tie-breaking). -/
def HitSpec (l : List SubExpression) (x y : Rat) (r : Int) : Prop :=
  (r = -1 ∨ ∃ i : Nat, r = (i : Int)) ∧
  (r = -1 ↔ ∀ s ∈ l, containsPoint s x y = false) ∧
  (∀ i : Nat, r = (i : Int) →
    ∃ hi : i < l.length, containsPoint l[i] x y = true ∧
      (∀ j, (hj : j < l.length) → containsPoint l[j] x y = true →
        l[i].width * l[i].height ≤ l[j].width * l[j].height) ∧
      (∀ j, (hj : j < l.length) → j < i → containsPoint l[j] x y = true →
        l[i].width * l[i].height < l[j].width * l[j].height))

/-- The loop invariant of `findSmallestAux` over the processed prefix. -/
def HitInv (processed : List SubExpression) (x y : Rat) (idx : Int) (best : Option Rat) : Prop :=
  (idx = -1 ∧ best = none ∧ ∀ s ∈ processed, containsPoint s x y = false) ∨
  (∃ k, ∃ hk : k < processed.length, idx = (k : Int) ∧
    best = some (processed[k].width * processed[k].height) ∧
    containsPoint processed[k] x y = true ∧
    (∀ j, (hj : j < processed.length) → containsPoint processed[j] x y = true →
      processed[k].width * processed[k].height ≤ processed[j].width * processed[j].height) ∧
    (∀ j, (hj : j < processed.length) → j < k → containsPoint processed[j] x y = true →
      processed[k].width * processed[k].height < processed[j].width * processed[j].height))

def graphKeys (g : ProofDiscoveryGraph) : List Int :=
  g.nodes.map Prod.fst

/-- Node keys are exactly `0, 1, ..., order - 1` (ids are dense and
0-based, an invariant of every reachable graph). -/
def denseKeys (g : ProofDiscoveryGraph) : Prop :=
  graphKeys g = List.map (fun k : Nat => (k : Int)) (List.range g.nodes.length)

/-- Every edge endpoint names an existing node. -/
def edgesClosed (g : ProofDiscoveryGraph) : Prop :=
  ∀ e ∈ g.edges, hasNode g e.source = true ∧ hasNode g e.target = true

def GraphWF (g : ProofDiscoveryGraph) : Prop :=
  denseKeys g ∧ edgesClosed g

/-- The edge shape produced by the `transition` case, per move kind. -/
def transitionEdge (move : MoveDescription) (newNodeId currentNodeId : Int) : GraphEdge :=
  match move.kind with
  | .strengthening => ⟨newNodeId, currentNodeId, false, move⟩
  | .weakening => ⟨currentNodeId, newNodeId, false, move⟩
  | .equivalence => ⟨newNodeId, currentNodeId, true, move⟩
  | .other => ⟨newNodeId, currentNodeId, false, move⟩

/-! ## Supporting lemmas -/

theorem areStatementCoordinatesEqual_iff (a b : StatementCoordinate) :
    areStatementCoordinatesEqual a b = true ↔ a = b := by
  cases a <;> cases b <;> simp [areStatementCoordinatesEqual]

theorem areStatementAddressesEqual_refl (a : StatementAddress) :
    areStatementAddressesEqual a a = true := by
  induction a with
  | nil => rfl
  | cons x xs ih =>
    simp only [areStatementAddressesEqual, List.length_cons, List.zip_cons_cons,
      List.all_cons, Bool.and_eq_true, beq_iff_eq] at ih ⊢
    exact ⟨trivial, (areStatementCoordinatesEqual_iff x x).mpr rfl, ih.2⟩

theorem areStatementAddressesEqual_iff (a b : StatementAddress) :
    areStatementAddressesEqual a b = true ↔ a = b := by
  constructor
  · intro h
    induction a generalizing b with
    | nil =>
      cases b with
      | nil => rfl
      | cons y ys => simp [areStatementAddressesEqual] at h
    | cons x xs ih =>
      cases b with
      | nil => simp [areStatementAddressesEqual] at h
      | cons y ys =>
        simp only [areStatementAddressesEqual, List.length_cons, List.zip_cons_cons,
          List.all_cons, Bool.and_eq_true, beq_iff_eq] at h
        obtain ⟨hlen, hxy, hall⟩ := h
        have hxs : areStatementAddressesEqual xs ys = true := by
          simp only [areStatementAddressesEqual, Bool.and_eq_true, beq_iff_eq]
          exact ⟨by omega, hall⟩
        rw [(areStatementCoordinatesEqual_iff x y).mp hxy, ih ys hxs]
  · rintro rfl
    exact areStatementAddressesEqual_refl a

/-- Claim C9: `areStatementAddressesEqual` is an equivalence relation
(reflexive, symmetric, transitive) on statement addresses, it holds on the
pair of empty addresses, and addresses of different lengths are never
equal. -/
theorem address_equality_is_equivalence :
    (∀ a : StatementAddress, areStatementAddressesEqual a a = true) ∧
    (∀ a b : StatementAddress,
      areStatementAddressesEqual a b = true → areStatementAddressesEqual b a = true) ∧
    (∀ a b c : StatementAddress,
      areStatementAddressesEqual a b = true → areStatementAddressesEqual b c = true →
        areStatementAddressesEqual a c = true) ∧
    areStatementAddressesEqual [] [] = true ∧
    (∀ a b : StatementAddress,
      a.length ≠ b.length → areStatementAddressesEqual a b = false) := by
  refine ⟨fun a => ?_, fun a b h => ?_, fun a b c h₁ h₂ => ?_, ?_, fun a b h => ?_⟩
  · exact (areStatementAddressesEqual_iff a a).mpr rfl
  · exact (areStatementAddressesEqual_iff b a).mpr
      ((areStatementAddressesEqual_iff a b).mp h).symm
  · exact (areStatementAddressesEqual_iff a c).mpr
      (((areStatementAddressesEqual_iff a b).mp h₁).trans
        ((areStatementAddressesEqual_iff b c).mp h₂))
  · exact (areStatementAddressesEqual_iff [] []).mpr rfl
  · rw [Bool.eq_false_iff]
    intro hcon
    exact h (congrArg List.length ((areStatementAddressesEqual_iff a b).mp hcon))

/-- Claim C9 witness: the symmetry, transitivity and length clauses applied
to concrete addresses. -/
theorem address_equality_is_equivalence_witness :
    areStatementAddressesEqual [StatementCoordinate.negation] [StatementCoordinate.negation] = true ∧
    areStatementAddressesEqual [] [StatementCoordinate.negation] = false :=
  ⟨address_equality_is_equivalence.2.1 [StatementCoordinate.negation]
      [StatementCoordinate.negation]
      (address_equality_is_equivalence.1 [StatementCoordinate.negation]),
   address_equality_is_equivalence.2.2.2.2 [] [StatementCoordinate.negation] (by decide)⟩

theorem parseAtomicStatementGo_cons_dollar (rest : List Char) (m : Bool) (acc : List Char) :
    parseAtomicStatementGo ('$' :: rest) m acc =
      (if acc.isEmpty then [] else [mkSegment m acc]) ++
        parseAtomicStatementGo rest (!m) [] := rfl

theorem parseAtomicStatementGo_cons_of_ne (c : Char) (rest : List Char) (m : Bool)
    (acc : List Char) (hc : ¬c = '$') :
    parseAtomicStatementGo (c :: rest) m acc = parseAtomicStatementGo rest m (c :: acc) := by
  simp [parseAtomicStatementGo, hc]

theorem parseAtomicStatementGo_append_dollar (ts : List Char) (h : '$' ∉ ts) :
    ∀ (m : Bool) (acc : List Char),
      parseAtomicStatementGo (ts ++ ['$']) m acc = parseAtomicStatementGo ts m acc := by
  induction ts with
  | nil =>
    intro m acc
    rw [List.nil_append, parseAtomicStatementGo_cons_dollar]
    simp [parseAtomicStatementGo]
  | cons c ts ih =>
    intro m acc
    have hc : ¬c = '$' := fun hc => h (hc ▸ List.mem_cons_self c ts)
    have hts : '$' ∉ ts := fun hts => h (List.mem_cons_of_mem c hts)
    rw [List.cons_append, parseAtomicStatementGo_cons_of_ne c _ _ _ hc,
      parseAtomicStatementGo_cons_of_ne c _ _ _ hc]
    exact ih hts m (c :: acc)

theorem parseAtomicStatementGo_trailing_dollar (cs ts : List Char) (h : '$' ∉ ts) :
    ∀ (m : Bool) (acc : List Char),
      parseAtomicStatementGo (cs ++ '$' :: (ts ++ ['$'])) m acc =
        parseAtomicStatementGo (cs ++ '$' :: ts) m acc := by
  induction cs with
  | nil =>
    intro m acc
    rw [List.nil_append, List.nil_append, parseAtomicStatementGo_cons_dollar,
      parseAtomicStatementGo_cons_dollar, parseAtomicStatementGo_append_dollar ts h]
  | cons c cs ih =>
    intro m acc
    by_cases hc : c = '$'
    · subst hc
      rw [List.cons_append, List.cons_append, parseAtomicStatementGo_cons_dollar,
        parseAtomicStatementGo_cons_dollar, ih]
    · rw [List.cons_append, List.cons_append, parseAtomicStatementGo_cons_of_ne c _ _ _ hc,
        parseAtomicStatementGo_cons_of_ne c _ _ _ hc]
      exact ih m (c :: acc)

/-- Claim C8: parsing `"The sum $a + b$ is equal to $c$"` yields exactly the
formula segments `"a + b"` and `"c"` and the text segments `"The sum "` and
`" is equal to "` (the trailing empty text segment is omitted), and an
unmatched trailing marker closes the last open segment implicitly at
end-of-string: appending the closing `$` does not change the parse. -/
theorem parseAtomicStatement_spec :
    parseAtomicStatement "The sum $a + b$ is equal to $c$" =
      [Segment.text "The sum ", Segment.math "a + b",
       Segment.text " is equal to ", Segment.math "c"] ∧
    (∀ s t : String, '$' ∉ t.toList →
      parseAtomicStatement (s ++ "$" ++ t) = parseAtomicStatement (s ++ "$" ++ t ++ "$")) := by
  constructor
  · rfl
  · intro s t h
    show parseAtomicStatementGo (s ++ "$" ++ t).toList false [] =
      parseAtomicStatementGo (s ++ "$" ++ t ++ "$").toList false []
    have h1 : (s ++ "$" ++ t).toList = s.toList ++ '$' :: t.toList := by
      simp [String.toList, String.data_append]
    have h2 : (s ++ "$" ++ t ++ "$").toList = s.toList ++ '$' :: (t.toList ++ ['$']) := by
      simp [String.toList, String.data_append]
    rw [h1, h2, parseAtomicStatementGo_trailing_dollar s.toList t.toList h]

/-- Claim C8 witness: the trailing-marker clause applied to a concrete
input with an unmatched trailing marker. -/
theorem parseAtomicStatement_spec_witness :
    parseAtomicStatement ("foo " ++ "$" ++ "bar") =
      parseAtomicStatement ("foo " ++ "$" ++ "bar" ++ "$") :=
  parseAtomicStatement_spec.2 "foo " "bar" (by decide)

theorem parseAtomicStatementGo_content_ne_empty :
    ∀ (cs : List Char) (m : Bool) (acc : List Char), ∀ seg ∈ parseAtomicStatementGo cs m acc,
      seg.content ≠ "" := by
  have push : ∀ (m : Bool) (acc : List Char),
      ∀ seg ∈ (if acc.isEmpty then ([] : List Segment) else [mkSegment m acc]),
        seg.content ≠ "" := by
    intro m acc seg hseg
    by_cases hacc : acc.isEmpty
    · rw [if_pos hacc] at hseg
      exact absurd hseg (List.not_mem_nil seg)
    · rw [if_neg hacc] at hseg
      have hne : acc ≠ [] := fun hnil => hacc (by simp [hnil])
      rcases List.mem_singleton.mp hseg with rfl
      have : (mkSegment m acc).content = String.mk acc.reverse := by
        unfold mkSegment
        by_cases hm : m <;> simp [hm, Segment.content]
      rw [this]
      intro hcon
      have : acc.reverse = [] := congrArg String.data hcon
      exact hne (List.reverse_eq_nil_iff.mp this)
  intro cs
  induction cs with
  | nil =>
    intro m acc seg hseg
    exact push m acc seg hseg
  | cons c cs ih =>
    intro m acc seg hseg
    by_cases hc : c = '$'
    · rw [show parseAtomicStatementGo (c :: cs) m acc =
          (if acc.isEmpty then [] else [mkSegment m acc]) ++
            parseAtomicStatementGo cs (!m) [] by
          simp [parseAtomicStatementGo, hc]] at hseg
      rcases List.mem_append.mp hseg with hmem | hmem
      · exact push m acc seg hmem
      · exact ih (!m) [] seg hmem
    · rw [show parseAtomicStatementGo (c :: cs) m acc =
          parseAtomicStatementGo cs m (c :: acc) by
          simp [parseAtomicStatementGo, hc]] at hseg
      exact ih m (c :: acc) seg hseg

/-- Claim C10: the parser never emits a segment with empty content — empty
segments are dropped everywhere, not only the trailing one, so the output
need not alternate: `"$a$$b$"` yields two consecutive formula segments and
an input starting with `$` yields no leading empty text segment. -/
theorem parser_never_emits_empty_segment :
    (∀ (input : String), ∀ seg ∈ parseAtomicStatement input, seg.content ≠ "") ∧
    parseAtomicStatement "$a$$b$" = [Segment.math "a", Segment.math "b"] ∧
    parseAtomicStatement "$x+y$ is even" =
      [Segment.math "x+y", Segment.text " is even"] := by
  refine ⟨fun input seg hseg => ?_, rfl, rfl⟩
  exact parseAtomicStatementGo_content_ne_empty input.toList false [] seg hseg

/-- Claim C10 witness: the no-empty-segment clause applied to a concrete
parsed segment. -/
theorem parser_never_emits_empty_segment_witness :
    Segment.content (Segment.math "a") ≠ "" :=
  parser_never_emits_empty_segment.1 "$a$" (Segment.math "a") (by decide)

/-! ## Selection-state lemmas (claims C2, C4) -/

theorem areProofStateSelectionsEqual_iff (a b : ProofStateSelection) :
    areProofStateSelectionsEqual a b = true ↔
      (a.proofStateId.ref = b.proofStateId.ref ∧ a.location.kind = b.location.kind ∧
       a.location.label = b.location.label ∧ a.address = b.address ∧
       ∀ sa sb, a.selection = SelectionPayload.subexpression sa →
         b.selection = SelectionPayload.subexpression sb →
         sa.text = sb.text ∧ sa.source_start = sb.source_start ∧
         sa.source_end = sb.source_end ∧ sa.index = sb.index) := by
  simp only [areProofStateSelectionsEqual, proofStateIdJsEq, Bool.and_eq_true, beq_iff_eq,
    areStatementAddressesEqual_iff, and_assoc, and_congr_right_iff]
  intro _ _ _ _
  cases ha : a.selection with
  | statement sa =>
    simp only [ha]
    constructor
    · intro _ sx sy hx hy
      exact absurd hx (by simp)
    · intro _
      trivial
  | subexpression sa =>
    cases hb : b.selection with
    | statement sb =>
      simp only [hb]
      constructor
      · intro _ sx sy hx hy
        exact absurd hy (by simp)
      · intro _
        trivial
    | subexpression sb =>
      simp only [hb, areSubExpressionSelectionsEqual, Bool.and_eq_true, beq_iff_eq, and_assoc]
      constructor
      · rintro h sx sy hx hy
        cases hx
        cases hy
        exact h
      · intro h
        exact h sa sb rfl rfl

theorem areProofStateSelectionsEqual_refl (a : ProofStateSelection) :
    areProofStateSelectionsEqual a a = true :=
  (areProofStateSelectionsEqual_iff a a).mpr
    ⟨rfl, rfl, rfl, rfl, fun sa sb ha hb => by
      rw [ha] at hb
      cases hb
      exact ⟨rfl, rfl, rfl, rfl⟩⟩

theorem selectionReducer_toggle_of_found (S : List ProofStateSelection)
    (sel : ProofStateSelection) (i : Nat)
    (h : S.findIdx? (fun s => areProofStateSelectionsEqual s sel) = some i) :
    proofStateSelectionReducer S (.toggle sel) = S.eraseIdx i := by
  simp [proofStateSelectionReducer, h]

theorem selectionReducer_toggle_of_not_found (S : List ProofStateSelection)
    (sel : ProofStateSelection)
    (h : S.findIdx? (fun s => areProofStateSelectionsEqual s sel) = none) :
    proofStateSelectionReducer S (.toggle sel) = S ++ [sel] := by
  simp [proofStateSelectionReducer, h]

/-- Claim C2: the claim is right about the intended structural equality but
the code is wrong. `areProofStateSelectionsEqual` compares `proofStateId`
with JS `===`, which on the id record is reference equality, and the UI
constructs a fresh id object on every render. Evaluated at the failing
input: two ids with equal `proofNodeId`/`proofContextId` fields but
distinct references compare unequal, so a selection that is structurally
equal in the claim's sense (equal id fields, location, address, with the
full-Statement payload comparison skipped) is NOT recognized — toggling it
appends instead of removing, and the session reaches a state holding two
full-Statement selections at the same (id-value, location, address). -/
theorem selection_reference_equality_bug :
    proofStateIdJsEq ⟨0, 0, 0⟩ ⟨1, 0, 0⟩ = false ∧
    (⟨0, 0, 0⟩ : ProofStateId).proofNodeId = (⟨1, 0, 0⟩ : ProofStateId).proofNodeId ∧
    (⟨0, 0, 0⟩ : ProofStateId).proofContextId = (⟨1, 0, 0⟩ : ProofStateId).proofContextId ∧
    areProofStateSelectionsEqual
      ⟨⟨0, 0, 0⟩, ⟨.goal, "g"⟩, [], .statement (.atomic "P")⟩
      ⟨⟨1, 0, 0⟩, ⟨.goal, "g"⟩, [], .statement (.atomic "P")⟩ = false ∧
    List.foldl proofStateSelectionReducer []
      [.toggle ⟨⟨0, 0, 0⟩, ⟨.goal, "g"⟩, [], .statement (.atomic "P")⟩,
       .toggle ⟨⟨1, 0, 0⟩, ⟨.goal, "g"⟩, [], .statement (.atomic "P")⟩] =
      [⟨⟨0, 0, 0⟩, ⟨.goal, "g"⟩, [], .statement (.atomic "P")⟩,
       ⟨⟨1, 0, 0⟩, ⟨.goal, "g"⟩, [], .statement (.atomic "P")⟩] :=
  ⟨rfl, rfl, rfl, rfl, rfl⟩

/-- Claim C4 counterexample: toggling twice does not return the original
state. The state holds a full-Statement selection; toggling a sub-expression
selection with the same (proofStateId, location, address) removes it (the
payload comparison is skipped), and the second toggle inserts the
sub-expression selection, not the original Statement selection. -/
theorem toggle_involution_counterexample :
    proofStateSelectionReducer
      (proofStateSelectionReducer
        [⟨⟨0, 0, 0⟩, ⟨.goal, "g"⟩, [], .statement (.atomic "P")⟩]
        (.toggle ⟨⟨0, 0, 0⟩, ⟨.goal, "g"⟩, [], .subexpression ⟨"x", 0, 1, 0⟩⟩))
      (.toggle ⟨⟨0, 0, 0⟩, ⟨.goal, "g"⟩, [], .subexpression ⟨"x", 0, 1, 0⟩⟩) ≠
    [⟨⟨0, 0, 0⟩, ⟨.goal, "g"⟩, [], .statement (.atomic "P")⟩] := by
  intro h
  have h2 : [(⟨⟨0, 0, 0⟩, ⟨.goal, "g"⟩, [], .subexpression ⟨"x", 0, 1, 0⟩⟩ : ProofStateSelection)] =
      [⟨⟨0, 0, 0⟩, ⟨.goal, "g"⟩, [], .statement (.atomic "P")⟩] := h
  simp only [List.cons.injEq, ProofStateSelection.mk.injEq, and_true] at h2
  exact absurd h2.2.2.2 (by simp)

/-- Claim C4 (amended): toggle is an involution whenever no element of the
selection state is structurally equal to the toggled selection: the first
toggle appends it and the second removes exactly it. -/
theorem toggle_involution_of_not_selected
    (S : List ProofStateSelection) (sel : ProofStateSelection)
    (h : ∀ x ∈ S, areProofStateSelectionsEqual x sel = false) :
    proofStateSelectionReducer (proofStateSelectionReducer S (.toggle sel)) (.toggle sel) = S := by
  have hfind : S.findIdx? (fun s => areProofStateSelectionsEqual s sel) = none :=
    List.findIdx?_eq_none_iff.mpr h
  rw [selectionReducer_toggle_of_not_found S sel hfind]
  have hfind2 : (S ++ [sel]).findIdx? (fun s => areProofStateSelectionsEqual s sel) =
      some S.length := by
    rw [List.findIdx?_append, hfind]
    simp [List.findIdx?_cons, areProofStateSelectionsEqual_refl sel]
  rw [selectionReducer_toggle_of_found _ sel S.length hfind2,
    List.eraseIdx_append_of_length_le (Nat.le_refl S.length)]
  simp

/-- Claim C4 witness: the amended involution applied to a concrete state not
containing an equal selection. -/
theorem toggle_involution_of_not_selected_witness :
    proofStateSelectionReducer
      (proofStateSelectionReducer
        [⟨⟨1, 1, 0⟩, ⟨.hypothesis, "h"⟩, [], .statement (.atomic "R")⟩]
        (.toggle ⟨⟨0, 0, 0⟩, ⟨.goal, "g"⟩, [], .statement (.atomic "P")⟩))
      (.toggle ⟨⟨0, 0, 0⟩, ⟨.goal, "g"⟩, [], .statement (.atomic "P")⟩) =
    [⟨⟨1, 1, 0⟩, ⟨.hypothesis, "h"⟩, [], .statement (.atomic "R")⟩] :=
  toggle_involution_of_not_selected _ _ (by
    intro x hx
    rcases List.mem_singleton.mp hx with rfl
    rfl)

/-! ## Hit-testing lemmas (claim C7) -/

theorem hitInv_extend_skip (processed : List SubExpression) (s : SubExpression)
    (x y : Rat) (idx : Int) (best : Option Rat)
    (hinv : HitInv processed x y idx best)
    (hskip : containsPoint s x y = false ∨
      (containsPoint s x y = true ∧ areaLtBest (s.width * s.height) best = false)) :
    HitInv (processed ++ [s]) x y idx best := by
  have hslen : processed.length < (processed ++ [s]).length := by simp
  rcases hinv with ⟨hidx, hbest, hnone⟩ | ⟨k, hk, hidx, hbest, hcont, hmin, hfirst⟩
  · rcases hskip with hc | ⟨hc, hbeat⟩
    · left
      refine ⟨hidx, hbest, fun t ht => ?_⟩
      rcases List.mem_append.mp ht with h | h
      · exact hnone t h
      · rcases List.mem_singleton.mp h with rfl
        exact hc
    · rw [hbest] at hbeat
      exact absurd hbeat (by simp [areaLtBest])
  · right
    have hk' : k < (processed ++ [s]).length := Nat.lt_trans hk hslen
    have hgetk : (processed ++ [s])[k] = processed[k] := List.getElem_append_left hk
    refine ⟨k, hk', hidx, by rw [hgetk]; exact hbest, by rw [hgetk]; exact hcont, ?_, ?_⟩
    · intro j hj hcj
      rcases Nat.lt_or_ge j processed.length with hjl | hjg
      · have hgetj : (processed ++ [s])[j] = processed[j] := List.getElem_append_left hjl
        rw [hgetj] at hcj
        rw [hgetk, hgetj]
        exact hmin j hjl hcj
      · have hj_eq : j = processed.length := by
          have := hj
          simp only [List.length_append, List.length_singleton] at this
          omega
        have hgetj : (processed ++ [s])[j] = s :=
          List.getElem_concat_length processed s j hj_eq hj
        rw [hgetj] at hcj
        rcases hskip with hc | ⟨hc, hbeat⟩
        · exact absurd hcj (by simp [hc])
        · rw [hbest] at hbeat
          rw [hgetk, hgetj]
          simpa [areaLtBest, not_lt] using hbeat
    · intro j hj hjk hcj
      have hjl : j < processed.length := Nat.lt_trans hjk hk
      have hgetj : (processed ++ [s])[j] = processed[j] := List.getElem_append_left hjl
      rw [hgetj] at hcj
      rw [hgetk, hgetj]
      exact hfirst j hjl hjk hcj

theorem hitInv_extend_update (processed : List SubExpression) (s : SubExpression)
    (x y : Rat) (idx : Int) (best : Option Rat)
    (hinv : HitInv processed x y idx best)
    (hc : containsPoint s x y = true)
    (hbeat : areaLtBest (s.width * s.height) best = true) :
    HitInv (processed ++ [s]) x y (processed.length : Int) (some (s.width * s.height)) := by
  have hslen : processed.length < (processed ++ [s]).length := by simp
  have hgets : (processed ++ [s])[processed.length] = s :=
    List.getElem_concat_length processed s processed.length rfl hslen
  right
  refine ⟨processed.length, hslen, rfl, by rw [hgets], by rw [hgets]; exact hc, ?_, ?_⟩
  · intro j hj hcj
    rcases Nat.lt_or_ge j processed.length with hjl | hjg
    · have hgetj : (processed ++ [s])[j] = processed[j] := List.getElem_append_left hjl
      rw [hgetj] at hcj
      rw [hgets, hgetj]
      rcases hinv with ⟨-, hbest, hnone⟩ | ⟨k, hk, hidx, hbest, hcont, hmin, hfirst⟩
      · exact absurd hcj (by simp [hnone _ (List.getElem_mem hjl)])
      · rw [hbest] at hbeat
        have hlt : s.width * s.height < processed[k].width * processed[k].height := by
          simpa [areaLtBest] using hbeat
        exact le_of_lt (lt_of_lt_of_le hlt (hmin j hjl hcj))
    · have hj_eq : j = processed.length := by
        have := hj
        simp only [List.length_append, List.length_singleton] at this
        omega
      subst hj_eq
      rw [hgets]
  · intro j hj hjk hcj
    have hjl : j < processed.length := hjk
    have hgetj : (processed ++ [s])[j] = processed[j] := List.getElem_append_left hjl
    rw [hgetj] at hcj
    rw [hgets, hgetj]
    rcases hinv with ⟨-, hbest, hnone⟩ | ⟨k, hk, hidx, hbest, hcont, hmin, hfirst⟩
    · exact absurd hcj (by simp [hnone _ (List.getElem_mem hjl)])
    · rw [hbest] at hbeat
      have hlt : s.width * s.height < processed[k].width * processed[k].height := by
        simpa [areaLtBest] using hbeat
      exact lt_of_lt_of_le hlt (hmin j hjl hcj)

theorem findSmallestAux_spec (rest : List SubExpression) (x y : Rat) :
    ∀ (processed : List SubExpression) (idx : Int) (best : Option Rat),
      HitInv processed x y idx best →
      HitSpec (processed ++ rest) x y (findSmallestAux rest x y processed.length idx best) := by
  induction rest with
  | nil =>
    intro processed idx best hinv
    rw [List.append_nil]
    show HitSpec processed x y idx
    rcases hinv with ⟨hidx, hbest, hnone⟩ | ⟨k, hk, hidx, hbest, hcont, hmin, hfirst⟩
    · subst hidx
      refine ⟨Or.inl rfl, ?_, ?_⟩
      · exact iff_of_true rfl hnone
      · intro i hi
        exact absurd hi (by omega)
    · subst hidx
      refine ⟨Or.inr ⟨k, rfl⟩, ?_, ?_⟩
      · refine iff_of_false (by omega) fun hall => ?_
        exact absurd hcont (by simp [hall _ (List.getElem_mem hk)])
      · intro i hi
        have hki : k = i := by omega
        subst hki
        exact ⟨hk, hcont, hmin, hfirst⟩
  | cons s rest ih =>
    intro processed idx best hinv
    have happ : processed ++ s :: rest = (processed ++ [s]) ++ rest := by simp
    have hlen1 : processed.length + 1 = (processed ++ [s]).length := by simp
    rw [happ]
    cases hc : containsPoint s x y with
    | false =>
      have hstep : findSmallestAux (s :: rest) x y processed.length idx best =
          findSmallestAux rest x y (processed.length + 1) idx best := by
        simp [findSmallestAux, hc]
      rw [hstep, hlen1]
      exact ih (processed ++ [s]) idx best
        (hitInv_extend_skip processed s x y idx best hinv (Or.inl hc))
    | true =>
      cases hbeat : areaLtBest (s.width * s.height) best with
      | false =>
        have hstep : findSmallestAux (s :: rest) x y processed.length idx best =
            findSmallestAux rest x y (processed.length + 1) idx best := by
          simp [findSmallestAux, hc, hbeat]
        rw [hstep, hlen1]
        exact ih (processed ++ [s]) idx best
          (hitInv_extend_skip processed s x y idx best hinv (Or.inr ⟨hc, hbeat⟩))
      | true =>
        have hstep : findSmallestAux (s :: rest) x y processed.length idx best =
            findSmallestAux rest x y (processed.length + 1) (processed.length : Int)
              (some (s.width * s.height)) := by
          simp [findSmallestAux, hc, hbeat]
        rw [hstep, hlen1]
        exact ih (processed ++ [s]) (processed.length : Int) (some (s.width * s.height))
          (hitInv_extend_update processed s x y idx best hinv hc hbeat)

/-- Claim C7: hit-testing returns the containing box (inclusive of edges)
with the smallest area `width * height`, ties resolved by first occurrence,
and `-1` (no match) when no box contains the point; in particular for
`A = {x:0,y:0,w:10,h:10}` and `B = {x:2,y:2,w:4,h:4}`, point `(4,4)` yields
`B` (index 1), point `(1,1)` yields `A` (index 0) and point `(20,20)` yields
no match. -/
theorem findSmallestAtPoint_spec :
    (∀ (l : List SubExpression) (x y : Rat), HitSpec l x y (findSmallestAtPoint l x y)) ∧
    findSmallestAtPoint
      [⟨"A", 0, 1, 0, 0, 10, 10⟩, ⟨"B", 0, 1, 2, 2, 4, 4⟩] 4 4 = 1 ∧
    findSmallestAtPoint
      [⟨"A", 0, 1, 0, 0, 10, 10⟩, ⟨"B", 0, 1, 2, 2, 4, 4⟩] 1 1 = 0 ∧
    findSmallestAtPoint
      [⟨"A", 0, 1, 0, 0, 10, 10⟩, ⟨"B", 0, 1, 2, 2, 4, 4⟩] 20 20 = -1 := by
  refine ⟨fun l x y => ?_,
    by norm_num [findSmallestAtPoint, findSmallestAux, containsPoint, areaLtBest],
    by norm_num [findSmallestAtPoint, findSmallestAux, containsPoint, areaLtBest],
    by norm_num [findSmallestAtPoint, findSmallestAux, containsPoint, areaLtBest]⟩
  have := findSmallestAux_spec l x y [] (-1) none (Or.inl ⟨rfl, rfl, by simp⟩)
  simpa [findSmallestAtPoint] using this

/-- Claim C7 witness: the characterization applied at a concrete box list
and query point. -/
theorem findSmallestAtPoint_spec_witness :
    HitSpec [(⟨"A", 0, 1, 0, 0, 10, 10⟩ : SubExpression)] 1 1
      (findSmallestAtPoint [⟨"A", 0, 1, 0, 0, 10, 10⟩] 1 1) :=
  findSmallestAtPoint_spec.1 [⟨"A", 0, 1, 0, 0, 10, 10⟩] 1 1

/-! ## Proof-discovery graph lemmas (claims C1, C3, C5, C6) -/

theorem hasNode_iff_mem_keys (g : ProofDiscoveryGraph) (n : Int) :
    hasNode g n = true ↔ n ∈ graphKeys g := by
  simp only [hasNode, graphKeys, List.any_eq_true, List.mem_map, beq_iff_eq]

theorem denseKeys_hasNode_iff {g : ProofDiscoveryGraph} (h : denseKeys g) (n : Int) :
    hasNode g n = true ↔ ∃ k : Nat, k < g.nodes.length ∧ (k : Int) = n := by
  constructor
  · intro hc
    have hmem : n ∈ graphKeys g := (hasNode_iff_mem_keys g n).mp hc
    rw [h] at hmem
    obtain ⟨k, hk, he⟩ := List.mem_map.mp hmem
    exact ⟨k, List.mem_range.mp hk, he⟩
  · rintro ⟨k, hk, rfl⟩
    refine (hasNode_iff_mem_keys g _).mpr ?_
    rw [h]
    exact List.mem_map.mpr ⟨k, List.mem_range.mpr hk, rfl⟩

theorem denseKeys_not_hasNode_order {g : ProofDiscoveryGraph} (h : denseKeys g) :
    hasNode g (g.nodes.length : Int) = false := by
  rw [Bool.eq_false_iff]
  intro hc
  obtain ⟨k, hk, he⟩ := (denseKeys_hasNode_iff h _).mp hc
  omega

theorem hasNode_append_node (nodes : List (Int × ProofNode)) (edges edges2 : List GraphEdge)
    (n : Int) (node : ProofNode) (m : Int) :
    hasNode ⟨nodes ++ [(n, node)], edges⟩ m =
      (hasNode ⟨nodes, edges2⟩ m || (n == m)) := by
  simp [hasNode, List.any_append]

theorem addDirectedEdge_ok_iff (g : ProofDiscoveryGraph) (s t : Int) (m : MoveDescription)
    (hs : hasNode g s = true) (ht : hasNode g t = true)
    (hdup : g.edges.any (fun e => !e.undirected && e.source == s && e.target == t) = false) :
    addDirectedEdge g s t m = .ok { g with edges := g.edges ++ [⟨s, t, false, m⟩] } := by
  simp [addDirectedEdge, hs, ht, hdup]

theorem addUndirectedEdge_ok_iff (g : ProofDiscoveryGraph) (s t : Int) (m : MoveDescription)
    (hs : hasNode g s = true) (ht : hasNode g t = true)
    (hdup : g.edges.any (fun e =>
      e.undirected && ((e.source == s && e.target == t) ||
        (e.source == t && e.target == s))) = false) :
    addUndirectedEdge g s t m = .ok { g with edges := g.edges ++ [⟨s, t, true, m⟩] } := by
  simp [addUndirectedEdge, hs, ht, hdup]

theorem transition_spec_of_wf (s : ProofDiscoveryState) (move : MoveDescription)
    (ps : ProofState) (hwf : GraphWF s.graph)
    (hcur : hasNode s.graph s.currentNodeId = true) :
    proofDiscoveryStateReducer s (.transition move ps) = .ok
      { statement := s.statement,
        graph := ⟨s.graph.nodes ++ [((s.graph.order : Int), ⟨ps⟩)],
                  s.graph.edges ++
                    [transitionEdge move (s.graph.order : Int) s.currentNodeId]⟩,
        currentNodeId := (s.graph.order : Int),
        isSolved := s.isSolved } := by
  obtain ⟨hdense, hclosed⟩ := hwf
  have hfresh : hasNode s.graph ((s.graph.order : Int)) = false :=
    denseKeys_not_hasNode_order hdense
  have hends : ∀ e ∈ s.graph.edges,
      e.source ≠ ((s.graph.order : Int)) ∧ e.target ≠ ((s.graph.order : Int)) := by
    intro e he
    constructor
    · intro hc
      have := (hclosed e he).1
      rw [hc, hfresh] at this
      cases this
    · intro hc
      have := (hclosed e he).2
      rw [hc, hfresh] at this
      cases this
  set n : Int := (s.graph.order : Int) with hn
  have hcur_ne : s.currentNodeId ≠ n := by
    intro hc
    rw [hc, hfresh] at hcur
    cases hcur
  set g1 : ProofDiscoveryGraph :=
    ⟨s.graph.nodes ++ [(n, (⟨ps⟩ : ProofNode))], s.graph.edges⟩ with hg1
  have haddNode : addNode s.graph n ⟨ps⟩ = .ok g1 := by
    simp [addNode, hfresh, hg1]
  have hsn : hasNode g1 n = true := by
    rw [hg1, hasNode_append_node s.graph.nodes s.graph.edges s.graph.edges]
    simp
  have hsc : hasNode g1 s.currentNodeId = true := by
    rw [hg1, hasNode_append_node s.graph.nodes s.graph.edges s.graph.edges]
    simp [hcur]
  have hdup1 : g1.edges.any
      (fun e => !e.undirected && e.source == n && e.target == s.currentNodeId) = false := by
    rw [List.any_eq_false]
    intro e he
    have := (hends e he).1
    simp [this]
  have hdup2 : g1.edges.any
      (fun e => !e.undirected && e.source == s.currentNodeId && e.target == n) = false := by
    rw [List.any_eq_false]
    intro e he
    have := (hends e he).2
    simp [this]
  have hdup3 : g1.edges.any
      (fun e => e.undirected && ((e.source == n && e.target == s.currentNodeId) ||
        (e.source == s.currentNodeId && e.target == n))) = false := by
    rw [List.any_eq_false]
    intro e he
    obtain ⟨h1, h2⟩ := hends e he
    simp [h1, h2]
  show proofDiscoveryStateReducer s (.transition move ps) = _
  unfold proofDiscoveryStateReducer
  rw [show (s.graph.order : Int) = n from rfl] at *
  cases hk : move.kind with
  | strengthening =>
    simp only [hk, haddNode, addDirectedEdge_ok_iff g1 n s.currentNodeId move hsn hsc hdup1,
      transitionEdge]
  | weakening =>
    simp only [hk, haddNode, addDirectedEdge_ok_iff g1 s.currentNodeId n move hsc hsn hdup2,
      transitionEdge]
  | equivalence =>
    simp only [hk, haddNode, addUndirectedEdge_ok_iff g1 n s.currentNodeId move hsn hsc hdup3,
      transitionEdge]
  | other =>
    simp only [hk, haddNode, addDirectedEdge_ok_iff g1 n s.currentNodeId move hsn hsc hdup1,
      transitionEdge]

theorem hasNode_congr_nodes {g g' : ProofDiscoveryGraph} (h : g.nodes = g'.nodes) (m : Int) :
    hasNode g m = hasNode g' m := by
  unfold hasNode
  rw [h]

theorem setNodeProofState_nodes_map (g : ProofDiscoveryGraph) (id : Int) (ps : ProofState) :
    graphKeys (setNodeProofState g id ps) = graphKeys g ∧
    (setNodeProofState g id ps).nodes.length = g.nodes.length ∧
    (setNodeProofState g id ps).edges = g.edges := by
  refine ⟨?_, by simp [setNodeProofState], rfl⟩
  simp only [setNodeProofState, graphKeys, List.map_map]
  apply List.map_congr_left
  intro p _
  by_cases h : p.1 = id <;> simp [h]

theorem addNode_ok_elim {g : ProofDiscoveryGraph} {n : Int} {node : ProofNode}
    {g' : ProofDiscoveryGraph} (h : addNode g n node = .ok g') :
    g'.nodes = g.nodes ++ [(n, node)] ∧ g'.edges = g.edges ∧ hasNode g n = false := by
  unfold addNode at h
  split at h
  · exact absurd h (by simp)
  · rename_i h1
    injection h with h2
    subst h2
    exact ⟨rfl, rfl, by simpa using h1⟩

theorem addDirectedEdge_ok_elim {g : ProofDiscoveryGraph} {a b : Int} {m : MoveDescription}
    {g' : ProofDiscoveryGraph} (h : addDirectedEdge g a b m = .ok g') :
    g'.nodes = g.nodes ∧ g'.edges = g.edges ++ [⟨a, b, false, m⟩] ∧
    hasNode g a = true ∧ hasNode g b = true := by
  unfold addDirectedEdge at h
  split at h
  · exact absurd h (by simp)
  · split at h
    · exact absurd h (by simp)
    · split at h
      · exact absurd h (by simp)
      · rename_i h1 h2 h3
        injection h with h4
        subst h4
        exact ⟨rfl, rfl, by simpa using h1, by simpa using h2⟩

theorem addUndirectedEdge_ok_elim {g : ProofDiscoveryGraph} {a b : Int} {m : MoveDescription}
    {g' : ProofDiscoveryGraph} (h : addUndirectedEdge g a b m = .ok g') :
    g'.nodes = g.nodes ∧ g'.edges = g.edges ++ [⟨a, b, true, m⟩] ∧
    hasNode g a = true ∧ hasNode g b = true := by
  unfold addUndirectedEdge at h
  split at h
  · exact absurd h (by simp)
  · split at h
    · exact absurd h (by simp)
    · split at h
      · exact absurd h (by simp)
      · rename_i h1 h2 h3
        injection h with h4
        subst h4
        exact ⟨rfl, rfl, by simpa using h1, by simpa using h2⟩

theorem denseKeys_append {g : ProofDiscoveryGraph} (h : denseKeys g) (node : ProofNode)
    (edges2 : List GraphEdge) :
    denseKeys ⟨g.nodes ++ [((g.nodes.length : Int), node)], edges2⟩ := by
  show graphKeys _ = _
  unfold graphKeys
  simp only [List.map_append, List.length_append, List.map_cons, List.map_nil,
    List.length_cons, List.length_nil]
  rw [show (g.nodes.map Prod.fst) = graphKeys g from rfl, h, List.range_succ, List.map_append]
  simp

theorem graphWF_of_directed_ok {g1 g2 : ProofDiscoveryGraph} {a b : Int} {m : MoveDescription}
    (hd : addDirectedEdge g1 a b m = .ok g2) (h1 : GraphWF g1) : GraphWF g2 := by
  obtain ⟨hn, he, hsa, hsb⟩ := addDirectedEdge_ok_elim hd
  constructor
  · show graphKeys g2 = _
    unfold graphKeys
    rw [hn]
    exact h1.1
  · intro e heed
    rw [he] at heed
    have hasEq : ∀ m', hasNode g2 m' = hasNode g1 m' := fun m' => hasNode_congr_nodes hn m'
    rcases List.mem_append.mp heed with hmem | hmem
    · obtain ⟨c1, c2⟩ := h1.2 e hmem
      rw [hasEq, hasEq]
      exact ⟨c1, c2⟩
    · rcases List.mem_singleton.mp hmem with rfl
      rw [hasEq, hasEq]
      exact ⟨hsa, hsb⟩

theorem graphWF_of_undirected_ok {g1 g2 : ProofDiscoveryGraph} {a b : Int} {m : MoveDescription}
    (hd : addUndirectedEdge g1 a b m = .ok g2) (h1 : GraphWF g1) : GraphWF g2 := by
  obtain ⟨hn, he, hsa, hsb⟩ := addUndirectedEdge_ok_elim hd
  constructor
  · show graphKeys g2 = _
    unfold graphKeys
    rw [hn]
    exact h1.1
  · intro e heed
    rw [he] at heed
    have hasEq : ∀ m', hasNode g2 m' = hasNode g1 m' := fun m' => hasNode_congr_nodes hn m'
    rcases List.mem_append.mp heed with hmem | hmem
    · obtain ⟨c1, c2⟩ := h1.2 e hmem
      rw [hasEq, hasEq]
      exact ⟨c1, c2⟩
    · rcases List.mem_singleton.mp hmem with rfl
      rw [hasEq, hasEq]
      exact ⟨hsa, hsb⟩

theorem hasNode_eq_keys_any (g : ProofDiscoveryGraph) (m : Int) :
    hasNode g m = (graphKeys g).any (fun x => x == m) := by
  unfold hasNode graphKeys
  induction g.nodes with
  | nil => rfl
  | cons p rest ih => simp only [List.any_cons, List.map_cons, ih]

theorem hasNode_eq_of_keys {g g' : ProofDiscoveryGraph} (hk : graphKeys g = graphKeys g')
    (m : Int) : hasNode g m = hasNode g' m := by
  rw [hasNode_eq_keys_any, hasNode_eq_keys_any, hk]

theorem denseKeys_single (node : ProofNode) (edges : List GraphEdge) :
    denseKeys ⟨[((0 : Int), node)], edges⟩ := by
  show graphKeys _ = _
  rfl

theorem stepState_WF (s : ProofDiscoveryState) (a : ProofDiscoveryAction)
    (h : GraphWF s.graph) : GraphWF (stepState s a).graph := by
  obtain ⟨hdense, hclosed⟩ := h
  cases a with
  | initializeGraph st ps =>
    by_cases hord : s.graph.order > 0
    · have hstep : (stepState s (.initializeGraph st ps)).graph =
          ⟨[((0 : Int), ⟨ps⟩)], []⟩ := by
        simp [stepState, proofDiscoveryStateReducer, hord, clearGraph, addNode, hasNode,
          observedState]
      rw [hstep]
      refine ⟨denseKeys_single ⟨ps⟩ [], ?_⟩
      intro e he
      exact absurd he (List.not_mem_nil e)
    · have hnil : s.graph.nodes = [] := by
        have : s.graph.nodes.length = 0 := by
          unfold ProofDiscoveryGraph.order at hord
          omega
        exact List.length_eq_zero.mp this
      have hstep : (stepState s (.initializeGraph st ps)).graph =
          ⟨[((0 : Int), ⟨ps⟩)], s.graph.edges⟩ := by
        simp [stepState, proofDiscoveryStateReducer, hord, addNode, hasNode, hnil,
          observedState]
      rw [hstep]
      refine ⟨denseKeys_single ⟨ps⟩ s.graph.edges, ?_⟩
      intro e he
      exfalso
      have hc := (hclosed e he).1
      rw [show hasNode s.graph e.source = false by unfold hasNode; rw [hnil]; rfl] at hc
      cases hc
  | repair n ps =>
    by_cases hhn : hasNode s.graph n
    · have hstep : (stepState s (.repair n ps)).graph = setNodeProofState s.graph n ps := by
        simp [stepState, proofDiscoveryStateReducer, hhn, observedState]
      rw [hstep]
      obtain ⟨hkeys, hlen, hedges⟩ := setNodeProofState_nodes_map s.graph n ps
      refine ⟨?_, ?_⟩
      · show graphKeys _ = _
        rw [hkeys, hlen]
        exact hdense
      · intro e he
        rw [hedges] at he
        obtain ⟨c1, c2⟩ := hclosed e he
        rw [hasNode_eq_of_keys hkeys, hasNode_eq_of_keys hkeys]
        exact ⟨c1, c2⟩
    · have hstep : (stepState s (.repair n ps)).graph = s.graph := by
        simp [stepState, proofDiscoveryStateReducer, hhn, observedState]
      rw [hstep]
      exact ⟨hdense, hclosed⟩
  | focus n =>
    have hstep : (stepState s (.focus n)).graph = s.graph := by
      by_cases hhn : hasNode s.graph n <;>
        simp [stepState, proofDiscoveryStateReducer, hhn, observedState]
    rw [hstep]
    exact ⟨hdense, hclosed⟩
  | transition mv ps =>
    have hfresh : hasNode s.graph ((s.graph.order : Int)) = false :=
      denseKeys_not_hasNode_order hdense
    obtain ⟨g1, haddNode, hg1⟩ :
        ∃ g1, addNode s.graph ((s.graph.order : Int)) ⟨ps⟩ = .ok g1 ∧
          g1 = ⟨s.graph.nodes ++ [((s.graph.order : Int), ⟨ps⟩)], s.graph.edges⟩ :=
      ⟨_, by simp [addNode, hfresh], rfl⟩
    have hwf1 : GraphWF g1 := by
      rw [hg1]
      constructor
      · exact denseKeys_append hdense ⟨ps⟩ s.graph.edges
      · intro e he
        obtain ⟨c1, c2⟩ := hclosed e he
        have hmono : ∀ m, hasNode s.graph m = true →
            hasNode ⟨s.graph.nodes ++ [((s.graph.order : Int), ⟨ps⟩)], s.graph.edges⟩ m =
              true := by
          intro m hm
          rw [hasNode_append_node s.graph.nodes s.graph.edges s.graph.edges]
          simp [hm]
        exact ⟨hmono _ c1, hmono _ c2⟩
    cases hk : mv.kind with
    | strengthening =>
      cases hres : addDirectedEdge g1 ((s.graph.order : Int)) s.currentNodeId mv with
      | ok g2 =>
        have hstep : (stepState s (.transition mv ps)).graph = g2 := by
          simp [stepState, proofDiscoveryStateReducer, haddNode, hk, hres, observedState]
        rw [hstep]
        exact graphWF_of_directed_ok hres hwf1
      | error e =>
        have hstep : (stepState s (.transition mv ps)).graph = g1 := by
          simp [stepState, proofDiscoveryStateReducer, haddNode, hk, hres, observedState]
        rw [hstep]
        exact hwf1
    | weakening =>
      cases hres : addDirectedEdge g1 s.currentNodeId ((s.graph.order : Int)) mv with
      | ok g2 =>
        have hstep : (stepState s (.transition mv ps)).graph = g2 := by
          simp [stepState, proofDiscoveryStateReducer, haddNode, hk, hres, observedState]
        rw [hstep]
        exact graphWF_of_directed_ok hres hwf1
      | error e =>
        have hstep : (stepState s (.transition mv ps)).graph = g1 := by
          simp [stepState, proofDiscoveryStateReducer, haddNode, hk, hres, observedState]
        rw [hstep]
        exact hwf1
    | equivalence =>
      cases hres : addUndirectedEdge g1 ((s.graph.order : Int)) s.currentNodeId mv with
      | ok g2 =>
        have hstep : (stepState s (.transition mv ps)).graph = g2 := by
          simp [stepState, proofDiscoveryStateReducer, haddNode, hk, hres, observedState]
        rw [hstep]
        exact graphWF_of_undirected_ok hres hwf1
      | error e =>
        have hstep : (stepState s (.transition mv ps)).graph = g1 := by
          simp [stepState, proofDiscoveryStateReducer, haddNode, hk, hres, observedState]
        rw [hstep]
        exact hwf1
    | other =>
      cases hres : addDirectedEdge g1 ((s.graph.order : Int)) s.currentNodeId mv with
      | ok g2 =>
        have hstep : (stepState s (.transition mv ps)).graph = g2 := by
          simp [stepState, proofDiscoveryStateReducer, haddNode, hk, hres, observedState]
        rw [hstep]
        exact graphWF_of_directed_ok hres hwf1
      | error e =>
        have hstep : (stepState s (.transition mv ps)).graph = g1 := by
          simp [stepState, proofDiscoveryStateReducer, haddNode, hk, hres, observedState]
        rw [hstep]
        exact hwf1
  | finish =>
    exact ⟨hdense, hclosed⟩

theorem nullProofDiscoveryState_WF : GraphWF nullProofDiscoveryState.graph := by
  constructor
  · show graphKeys _ = _
    rfl
  · intro e he
    exact absurd he (List.not_mem_nil e)

theorem reachable_WF {s : ProofDiscoveryState} (h : Reachable s) : GraphWF s.graph := by
  obtain ⟨acts, hacts⟩ := h
  subst hacts
  have key : ∀ (acts : List ProofDiscoveryAction) (s0 : ProofDiscoveryState),
      GraphWF s0.graph → GraphWF (runActions s0 acts).graph := by
    intro acts
    induction acts with
    | nil => intro s0 h0; exact h0
    | cons a rest ih =>
      intro s0 h0
      exact ih _ (stepState_WF s0 a h0)
  exact key acts nullProofDiscoveryState nullProofDiscoveryState_WF

/-- Claim C3: from a reachable state whose current node exists, `transition`
adds exactly one node, whose id is the prior node count, adds exactly one
edge between the new node `n` and the current node `c` — `c → n` for
weakening, `n → c` for strengthening and other, undirected for
equivalence — and sets `currentNodeId` to the new node's id. -/
theorem transition_spec (s : ProofDiscoveryState) (move : MoveDescription) (ps : ProofState)
    (hreach : Reachable s) (hcur : hasNode s.graph s.currentNodeId = true) :
    proofDiscoveryStateReducer s (.transition move ps) = .ok
      { statement := s.statement,
        graph := ⟨s.graph.nodes ++ [((s.graph.order : Int), ⟨ps⟩)],
                  s.graph.edges ++
                    [transitionEdge move (s.graph.order : Int) s.currentNodeId]⟩,
        currentNodeId := (s.graph.order : Int),
        isSolved := s.isSolved } :=
  transition_spec_of_wf s move ps (reachable_WF hreach) hcur

/-- Claim C3 witness: a transition of each direction-relevant kind applied
to the concrete reachable state obtained by initializing the graph. -/
theorem transition_spec_witness :
    proofDiscoveryStateReducer (runActions nullProofDiscoveryState [.initializeGraph "p" []])
      (.transition ⟨.weakening, "w"⟩ []) = .ok
      { statement := (runActions nullProofDiscoveryState [.initializeGraph "p" []]).statement,
        graph := ⟨(runActions nullProofDiscoveryState
              [.initializeGraph "p" []]).graph.nodes ++
            [(((runActions nullProofDiscoveryState
                [.initializeGraph "p" []]).graph.order : Int), ⟨[]⟩)],
          (runActions nullProofDiscoveryState [.initializeGraph "p" []]).graph.edges ++
            [transitionEdge ⟨.weakening, "w"⟩
              ((runActions nullProofDiscoveryState [.initializeGraph "p" []]).graph.order : Int)
              (runActions nullProofDiscoveryState [.initializeGraph "p" []]).currentNodeId]⟩,
        currentNodeId :=
          ((runActions nullProofDiscoveryState [.initializeGraph "p" []]).graph.order : Int),
        isSolved := (runActions nullProofDiscoveryState [.initializeGraph "p" []]).isSolved } :=
  transition_spec (runActions nullProofDiscoveryState [.initializeGraph "p" []])
    ⟨.weakening, "w"⟩ [] ⟨[.initializeGraph "p" []], rfl⟩ rfl

/-- Claim C1 counterexample: `transition` dispatched on the null state
(whose `currentNodeId` `-1` names no node) raises an error, but only after
inserting the new node: the caller observes a graph grown from 0 to 1 nodes,
so the failed action is not free of partial mutation. -/
theorem structural_error_counterexample :
    (proofDiscoveryStateReducer nullProofDiscoveryState
      (.transition ⟨.weakening, "w"⟩ [])).didThrow = true ∧
    (stepState nullProofDiscoveryState
      (.transition ⟨.weakening, "w"⟩ [])).graph.nodes.length = 1 ∧
    nullProofDiscoveryState.graph.nodes.length = 0 :=
  ⟨rfl, rfl, rfl⟩

/-- Claim C1 (amended): `repair` and `focus` on a nonexistent node id throw
and leave the state observably unchanged; `transition` with a nonexistent
current node (fresh new id) throws only after inserting the new node, so the
caller observes exactly one extra node with unchanged edges, currentNodeId,
statement and isSolved. -/
theorem structural_errors_amended :
    (∀ (s : ProofDiscoveryState) (nodeId : Int) (ps : ProofState),
      hasNode s.graph nodeId = false →
      (proofDiscoveryStateReducer s (.repair nodeId ps)).didThrow = true ∧
      stepState s (.repair nodeId ps) = s) ∧
    (∀ (s : ProofDiscoveryState) (nodeId : Int),
      hasNode s.graph nodeId = false →
      (proofDiscoveryStateReducer s (.focus nodeId)).didThrow = true ∧
      stepState s (.focus nodeId) = s) ∧
    (∀ (s : ProofDiscoveryState) (move : MoveDescription) (ps : ProofState),
      hasNode s.graph s.currentNodeId = false →
      hasNode s.graph ((s.graph.order : Int)) = false →
      s.currentNodeId ≠ (s.graph.order : Int) →
      (proofDiscoveryStateReducer s (.transition move ps)).didThrow = true ∧
      stepState s (.transition move ps) =
        { s with graph := ⟨s.graph.nodes ++ [((s.graph.order : Int), ⟨ps⟩)],
            s.graph.edges⟩ }) := by
  refine ⟨?_, ?_, ?_⟩
  · intro s nodeId ps h
    have hred : proofDiscoveryStateReducer s (.repair nodeId ps) =
        .thrown ("Node with ID " ++ toString nodeId ++ " does not exist.") s.graph := by
      simp [proofDiscoveryStateReducer, h]
    exact ⟨by rw [hred]; rfl, by unfold stepState; rw [hred]; rfl⟩
  · intro s nodeId h
    have hred : proofDiscoveryStateReducer s (.focus nodeId) =
        .thrown ("Node with ID " ++ toString nodeId ++ " does not exist.") s.graph := by
      simp [proofDiscoveryStateReducer, h]
    exact ⟨by rw [hred]; rfl, by unfold stepState; rw [hred]; rfl⟩
  · intro s mv ps h1 h2 h3
    obtain ⟨g1, haddNode, hg1⟩ :
        ∃ g1, addNode s.graph ((s.graph.order : Int)) ⟨ps⟩ = .ok g1 ∧
          g1 = ⟨s.graph.nodes ++ [((s.graph.order : Int), ⟨ps⟩)], s.graph.edges⟩ :=
      ⟨_, by simp [addNode, h2], rfl⟩
    have hcur1 : hasNode g1 s.currentNodeId = false := by
      rw [hg1, hasNode_append_node s.graph.nodes s.graph.edges s.graph.edges]
      simp [h1, Ne.symm h3]
    have hn1 : hasNode g1 ((s.graph.order : Int)) = true := by
      rw [hg1, hasNode_append_node s.graph.nodes s.graph.edges s.graph.edges]
      simp
    have hthrown : ∃ msg, proofDiscoveryStateReducer s (.transition mv ps) =
        .thrown msg g1 := by
      cases hk : mv.kind with
      | strengthening =>
        have hedge : addDirectedEdge g1 ((s.graph.order : Int)) s.currentNodeId mv =
            .error "Graph.addDirectedEdge: target node not found." := by
          simp [addDirectedEdge, hn1, hcur1]
        exact ⟨"Graph.addDirectedEdge: target node not found.",
          by simp [proofDiscoveryStateReducer, haddNode, hk, hedge]⟩
      | weakening =>
        have hedge : addDirectedEdge g1 s.currentNodeId ((s.graph.order : Int)) mv =
            .error "Graph.addDirectedEdge: source node not found." := by
          simp [addDirectedEdge, hcur1]
        exact ⟨"Graph.addDirectedEdge: source node not found.",
          by simp [proofDiscoveryStateReducer, haddNode, hk, hedge]⟩
      | equivalence =>
        have hedge : addUndirectedEdge g1 ((s.graph.order : Int)) s.currentNodeId mv =
            .error "Graph.addUndirectedEdge: target node not found." := by
          simp [addUndirectedEdge, hn1, hcur1]
        exact ⟨"Graph.addUndirectedEdge: target node not found.",
          by simp [proofDiscoveryStateReducer, haddNode, hk, hedge]⟩
      | other =>
        have hedge : addDirectedEdge g1 ((s.graph.order : Int)) s.currentNodeId mv =
            .error "Graph.addDirectedEdge: target node not found." := by
          simp [addDirectedEdge, hn1, hcur1]
        exact ⟨"Graph.addDirectedEdge: target node not found.",
          by simp [proofDiscoveryStateReducer, haddNode, hk, hedge]⟩
    obtain ⟨msg, hred⟩ := hthrown
    refine ⟨by rw [hred]; rfl, ?_⟩
    unfold stepState
    rw [hred]
    show { s with graph := g1 } = _
    rw [hg1]

/-- Claim C1 witness: the amended statement applied to the null state for
each of the three action families. -/
theorem structural_errors_amended_witness :
    ((proofDiscoveryStateReducer nullProofDiscoveryState (.repair 5 [])).didThrow = true ∧
      stepState nullProofDiscoveryState (.repair 5 []) = nullProofDiscoveryState) ∧
    ((proofDiscoveryStateReducer nullProofDiscoveryState (.focus 7)).didThrow = true ∧
      stepState nullProofDiscoveryState (.focus 7) = nullProofDiscoveryState) ∧
    ((proofDiscoveryStateReducer nullProofDiscoveryState
        (.transition ⟨.equivalence, "e"⟩ [])).didThrow = true ∧
      stepState nullProofDiscoveryState (.transition ⟨.equivalence, "e"⟩ []) =
        { nullProofDiscoveryState with
            graph := ⟨nullProofDiscoveryState.graph.nodes ++
              [((nullProofDiscoveryState.graph.order : Int), ⟨[]⟩)],
              nullProofDiscoveryState.graph.edges⟩ }) :=
  ⟨structural_errors_amended.1 nullProofDiscoveryState 5 [] rfl,
   structural_errors_amended.2.1 nullProofDiscoveryState 7 rfl,
   structural_errors_amended.2.2 nullProofDiscoveryState ⟨.equivalence, "e"⟩ [] rfl rfl
     (by decide)⟩

/-- Claim C6 counterexample: after `finish` turns `isSolved` to true, a
later `initialize` action in the same session resets it to false. -/
theorem isSolved_terminal_counterexample :
    (runActions nullProofDiscoveryState
      [.initializeGraph "p" [], .finish]).isSolved = true ∧
    (runActions nullProofDiscoveryState
      [.initializeGraph "p" [], .finish, .initializeGraph "q" []]).isSolved = false :=
  ⟨rfl, rfl⟩

theorem stepState_isSolved_nonInit (s : ProofDiscoveryState) (a : ProofDiscoveryAction)
    (ha : a.isInitializeAction = false) (hs : s.isSolved = true) :
    (stepState s a).isSolved = true := by
  cases a with
  | initializeGraph st ps => cases ha
  | repair n ps =>
    by_cases hhn : hasNode s.graph n <;>
      simp [stepState, proofDiscoveryStateReducer, hhn, observedState, hs]
  | focus n =>
    by_cases hhn : hasNode s.graph n <;>
      simp [stepState, proofDiscoveryStateReducer, hhn, observedState, hs]
  | transition mv ps =>
    cases hadd : addNode s.graph ((s.graph.order : Int)) ⟨ps⟩ with
    | error e =>
      simp [stepState, proofDiscoveryStateReducer, hadd, observedState, hs]
    | ok g1 =>
      cases hk : mv.kind with
      | strengthening =>
        cases hres : addDirectedEdge g1 ((s.graph.order : Int)) s.currentNodeId mv with
        | ok g2 =>
          simp [stepState, proofDiscoveryStateReducer, hadd, hk, hres, observedState, hs]
        | error e =>
          simp [stepState, proofDiscoveryStateReducer, hadd, hk, hres, observedState, hs]
      | weakening =>
        cases hres : addDirectedEdge g1 s.currentNodeId ((s.graph.order : Int)) mv with
        | ok g2 =>
          simp [stepState, proofDiscoveryStateReducer, hadd, hk, hres, observedState, hs]
        | error e =>
          simp [stepState, proofDiscoveryStateReducer, hadd, hk, hres, observedState, hs]
      | equivalence =>
        cases hres : addUndirectedEdge g1 ((s.graph.order : Int)) s.currentNodeId mv with
        | ok g2 =>
          simp [stepState, proofDiscoveryStateReducer, hadd, hk, hres, observedState, hs]
        | error e =>
          simp [stepState, proofDiscoveryStateReducer, hadd, hk, hres, observedState, hs]
      | other =>
        cases hres : addDirectedEdge g1 ((s.graph.order : Int)) s.currentNodeId mv with
        | ok g2 =>
          simp [stepState, proofDiscoveryStateReducer, hadd, hk, hres, observedState, hs]
        | error e =>
          simp [stepState, proofDiscoveryStateReducer, hadd, hk, hres, observedState, hs]
  | finish =>
    simp [stepState, proofDiscoveryStateReducer, observedState]

/-- Claim C6 (amended): `isSolved` is terminal with respect to every action
other than `initialize`: once true, it stays true under any sequence of
repair/focus/transition/finish actions; only a re-initialization (which
discards the whole graph and starts a new problem) resets it to false. -/
theorem isSolved_terminal_amended (acts : List ProofDiscoveryAction) :
    ∀ s : ProofDiscoveryState, s.isSolved = true →
      (∀ a ∈ acts, a.isInitializeAction = false) →
      (runActions s acts).isSolved = true := by
  induction acts with
  | nil =>
    intro s hs _
    exact hs
  | cons a rest ih =>
    intro s hs hni
    exact ih (stepState s a)
      (stepState_isSolved_nonInit s a (hni a (List.mem_cons_self a rest)) hs)
      (fun b hb => hni b (List.mem_cons_of_mem a hb))

/-- Claim C6 witness: the amended terminality applied to a concrete solved
state and a concrete non-initialize action sequence. -/
theorem isSolved_terminal_amended_witness :
    (runActions (runActions nullProofDiscoveryState [.initializeGraph "p" [], .finish])
      [.focus 0, .finish]).isSolved = true :=
  isSolved_terminal_amended [.focus 0, .finish]
    (runActions nullProofDiscoveryState [.initializeGraph "p" [], .finish]) rfl (by decide)

theorem stepState_transition_nodes (s : ProofDiscoveryState) (mv : MoveDescription)
    (ps : ProofState) (hfresh : hasNode s.graph ((s.graph.order : Int)) = false) :
    (stepState s (.transition mv ps)).graph.nodes =
      s.graph.nodes ++ [((s.graph.order : Int), ⟨ps⟩)] := by
  obtain ⟨g1, haddNode, hg1⟩ :
      ∃ g1, addNode s.graph ((s.graph.order : Int)) ⟨ps⟩ = .ok g1 ∧
        g1 = ⟨s.graph.nodes ++ [((s.graph.order : Int), ⟨ps⟩)], s.graph.edges⟩ :=
    ⟨_, by simp [addNode, hfresh], rfl⟩
  cases hk : mv.kind with
  | strengthening =>
    cases hres : addDirectedEdge g1 ((s.graph.order : Int)) s.currentNodeId mv with
    | ok g2 =>
      have hstep : (stepState s (.transition mv ps)).graph = g2 := by
        simp [stepState, proofDiscoveryStateReducer, haddNode, hk, hres, observedState]
      rw [hstep, (addDirectedEdge_ok_elim hres).1, hg1]
    | error e =>
      have hstep : (stepState s (.transition mv ps)).graph = g1 := by
        simp [stepState, proofDiscoveryStateReducer, haddNode, hk, hres, observedState]
      rw [hstep, hg1]
  | weakening =>
    cases hres : addDirectedEdge g1 s.currentNodeId ((s.graph.order : Int)) mv with
    | ok g2 =>
      have hstep : (stepState s (.transition mv ps)).graph = g2 := by
        simp [stepState, proofDiscoveryStateReducer, haddNode, hk, hres, observedState]
      rw [hstep, (addDirectedEdge_ok_elim hres).1, hg1]
    | error e =>
      have hstep : (stepState s (.transition mv ps)).graph = g1 := by
        simp [stepState, proofDiscoveryStateReducer, haddNode, hk, hres, observedState]
      rw [hstep, hg1]
  | equivalence =>
    cases hres : addUndirectedEdge g1 ((s.graph.order : Int)) s.currentNodeId mv with
    | ok g2 =>
      have hstep : (stepState s (.transition mv ps)).graph = g2 := by
        simp [stepState, proofDiscoveryStateReducer, haddNode, hk, hres, observedState]
      rw [hstep, (addUndirectedEdge_ok_elim hres).1, hg1]
    | error e =>
      have hstep : (stepState s (.transition mv ps)).graph = g1 := by
        simp [stepState, proofDiscoveryStateReducer, haddNode, hk, hres, observedState]
      rw [hstep, hg1]
  | other =>
    cases hres : addDirectedEdge g1 ((s.graph.order : Int)) s.currentNodeId mv with
    | ok g2 =>
      have hstep : (stepState s (.transition mv ps)).graph = g2 := by
        simp [stepState, proofDiscoveryStateReducer, haddNode, hk, hres, observedState]
      rw [hstep, (addDirectedEdge_ok_elim hres).1, hg1]
    | error e =>
      have hstep : (stepState s (.transition mv ps)).graph = g1 := by
        simp [stepState, proofDiscoveryStateReducer, haddNode, hk, hres, observedState]
      rw [hstep, hg1]

theorem actionInsertions_ids (s : ProofDiscoveryState) (a : ProofDiscoveryAction)
    (hwf : GraphWF s.graph) (ha : a.isInitializeAction = false) :
    (actionInsertions s a).map Prod.fst =
      List.map (fun k : Nat => (k : Int))
        (List.range' s.graph.nodes.length (actionInsertions s a).length) ∧
    (stepState s a).graph.nodes.length =
      s.graph.nodes.length + (actionInsertions s a).length := by
  cases a with
  | initializeGraph st ps => cases ha
  | repair n ps =>
    refine ⟨rfl, ?_⟩
    by_cases hhn : hasNode s.graph n
    · have hstep : (stepState s (.repair n ps)).graph = setNodeProofState s.graph n ps := by
        simp [stepState, proofDiscoveryStateReducer, hhn, observedState]
      rw [hstep, (setNodeProofState_nodes_map s.graph n ps).2.1]
      rfl
    · have hstep : (stepState s (.repair n ps)).graph = s.graph := by
        simp [stepState, proofDiscoveryStateReducer, hhn, observedState]
      rw [hstep]
      rfl
  | focus n =>
    refine ⟨rfl, ?_⟩
    have hstep : (stepState s (.focus n)).graph = s.graph := by
      by_cases hhn : hasNode s.graph n <;>
        simp [stepState, proofDiscoveryStateReducer, hhn, observedState]
    rw [hstep]
    rfl
  | transition mv ps =>
    have hfresh : hasNode s.graph ((s.graph.order : Int)) = false :=
      denseKeys_not_hasNode_order hwf.1
    have hins : actionInsertions s (.transition mv ps) =
        [(((s.graph.order : Int)), ⟨ps⟩)] := by
      simp [actionInsertions, addNode, hfresh]
    rw [hins, stepState_transition_nodes s mv ps hfresh]
    exact ⟨rfl, by simp⟩
  | finish =>
    exact ⟨rfl, rfl⟩

theorem runTrace_ids (acts : List ProofDiscoveryAction) :
    ∀ s : ProofDiscoveryState, GraphWF s.graph →
      (∀ a ∈ acts, a.isInitializeAction = false) →
      (runTrace s acts).map Prod.fst =
        List.map (fun k : Nat => (k : Int))
          (List.range' s.graph.nodes.length (runTrace s acts).length) := by
  induction acts with
  | nil =>
    intro s _ _
    rfl
  | cons a rest ih =>
    intro s hwf hni
    have ha := hni a (List.mem_cons_self a rest)
    have hrest := fun b hb => hni b (List.mem_cons_of_mem a hb)
    obtain ⟨hins, hlen⟩ := actionInsertions_ids s a hwf ha
    have hwf2 := stepState_WF s a hwf
    have htrace : runTrace s (a :: rest) =
        actionInsertions s a ++ runTrace (stepState s a) rest := rfl
    rw [htrace, List.map_append, hins, ih (stepState s a) hwf2 hrest, hlen]
    have harith : (actionInsertions s a ++ runTrace (stepState s a) rest).length =
        (runTrace (stepState s a) rest).length + (actionInsertions s a).length := by
      rw [List.length_append]
      omega
    rw [harith, ← List.map_append, List.range'_append_1]

theorem pairwise_coe_range' (st n : Nat) :
    List.Pairwise (fun a b : Int => a < b)
      (List.map (fun k : Nat => (k : Int)) (List.range' st n)) := by
  rw [List.pairwise_map, List.range'_eq_map_range, List.pairwise_map]
  exact List.Pairwise.imp (fun hab => by omega) (List.sorted_lt_range n)

/-- Claim C5 counterexample: dispatching `initialize` twice in one session
re-assigns id 0 to a different node holding a different snapshot, so ids are
neither monotonically increasing across the session nor never reused. -/
theorem node_id_reuse_counterexample :
    runTrace nullProofDiscoveryState
        [.initializeGraph "a" [], .initializeGraph "b" [⟨[], [], []⟩]] =
      [((0 : Int), ⟨[]⟩), ((0 : Int), ⟨[⟨[], [], []⟩]⟩)] ∧
    (⟨[]⟩ : ProofNode) ≠ (⟨[⟨[], [], []⟩]⟩ : ProofNode) := by
  refine ⟨rfl, ?_⟩
  intro h
  have h2 : ([] : ProofState) = [⟨[], [], []⟩] := congrArg ProofNode.proofState h
  exact List.noConfusion h2

/-- Claim C5 (amended): as long as the session is not re-initialized (no
`initialize` action after the first position), node ids are assigned at
insertion time in strictly increasing order, so an id is never reused. -/
theorem node_ids_monotone_amended (acts : List ProofDiscoveryAction)
    (h : ∀ a ∈ acts.drop 1, a.isInitializeAction = false) :
    List.Pairwise (fun a b : Int => a < b)
      ((runTrace nullProofDiscoveryState acts).map Prod.fst) := by
  cases acts with
  | nil => exact List.Pairwise.nil
  | cons a rest =>
    have hrest : ∀ b ∈ rest, b.isInitializeAction = false := by
      intro b hb
      exact h b (by simpa using hb)
    by_cases ha : a.isInitializeAction = true
    · obtain ⟨st, ps, rfl⟩ : ∃ st ps, a = .initializeGraph st ps := by
        cases a with
        | initializeGraph st ps => exact ⟨st, ps, rfl⟩
        | repair n ps => exact absurd ha (by simp [ProofDiscoveryAction.isInitializeAction])
        | focus n => exact absurd ha (by simp [ProofDiscoveryAction.isInitializeAction])
        | transition mv ps =>
          exact absurd ha (by simp [ProofDiscoveryAction.isInitializeAction])
        | finish => exact absurd ha (by simp [ProofDiscoveryAction.isInitializeAction])
      have hstep : stepState nullProofDiscoveryState (.initializeGraph st ps) =
          { statement := st, graph := ⟨[((0 : Int), ⟨ps⟩)], []⟩,
            currentNodeId := 0, isSolved := false } := rfl
      have hwf1 : GraphWF (stepState nullProofDiscoveryState (.initializeGraph st ps)).graph := by
        rw [hstep]
        exact ⟨denseKeys_single ⟨ps⟩ [], fun e he => absurd he (List.not_mem_nil e)⟩
      have htrace : runTrace nullProofDiscoveryState (.initializeGraph st ps :: rest) =
          [((0 : Int), (⟨ps⟩ : ProofNode))] ++
            runTrace (stepState nullProofDiscoveryState (.initializeGraph st ps)) rest := rfl
      rw [htrace, List.map_append, runTrace_ids rest _ hwf1 hrest]
      have hlen1 : (stepState nullProofDiscoveryState
          (.initializeGraph st ps)).graph.nodes.length = 1 := by
        rw [hstep]
        rfl
      rw [hlen1]
      rw [show ([((0 : Int), (⟨ps⟩ : ProofNode))].map Prod.fst) =
        List.map (fun k : Nat => (k : Int)) (List.range' 0 1) from rfl]
      rw [show (List.range' 1 (runTrace (stepState nullProofDiscoveryState
          (.initializeGraph st ps)) rest).length) =
        (List.range' (0 + 1) (runTrace (stepState nullProofDiscoveryState
          (.initializeGraph st ps)) rest).length) from rfl]
      rw [← List.map_append, List.range'_append_1]
      exact pairwise_coe_range' 0 _
    · have hall : ∀ b ∈ a :: rest, b.isInitializeAction = false := by
        intro b hb
        rcases List.mem_cons.mp hb with rfl | hb
        · simpa using ha
        · exact hrest b hb
      rw [runTrace_ids (a :: rest) nullProofDiscoveryState nullProofDiscoveryState_WF hall]
      exact pairwise_coe_range' 0 _

/-- Claim C5 witness: the amended monotonicity applied to a concrete
initialize-then-transition session. -/
theorem node_ids_monotone_amended_witness :
    List.Pairwise (fun a b : Int => a < b)
      ((runTrace nullProofDiscoveryState
        [.initializeGraph "p" [], .transition ⟨.weakening, "w"⟩ [],
         .transition ⟨.strengthening, "s"⟩ []]).map Prod.fst) :=
  node_ids_monotone_amended
    [.initializeGraph "p" [], .transition ⟨.weakening, "w"⟩ [],
     .transition ⟨.strengthening, "s"⟩ []] (by decide)

end MPF
